import Mathlib

/-!
Verification of the social feed aggregation engine (`src/chrome/js/background.js`).

The background script keeps a mutable array `unifiedFeed` of post records and a
map `monitoredTabs` of monitored tab ids.  All mutations happen inside message
or tab-event handlers.  This file shallowly embeds that state and those
handlers as pure Lean functions over explicit state, and proves or refutes the
frozen claims about them.

JavaScript `Array.prototype.sort` with a numeric comparator is a stable sort;
it is modelled by `List.insertionSort` with the preorder "comparator ≤ 0",
which yields the same (unique) stable sorted permutation.
-/

set_option maxRecDepth 16384

namespace SocialAgg

/-- Author object of a post record (spec §3: `{name, handle, avatar?}`). -/
structure Author where
  name : String
  handle : String
  avatar : Option String
deriving DecidableEq

/-- Engagement counters as the producers actually emit them.  The three
scrapers use different field names (twitter: replies/retweets/likes, bluesky:
replies/reposts/likes, mastodon: replies/boosts/favorites); a field a producer
does not set is absent (`none`), matching `undefined` in JavaScript. -/
structure Engagement where
  replies : Option Nat
  reposts : Option Nat
  likes : Option Nat
  retweets : Option Nat
  boosts : Option Nat
  favorites : Option Nat
deriving DecidableEq

/-- One post record as stored in `unifiedFeed`.  `timestamp` may be absent,
`scrapedAt` is always set by the producers (`Date.now()`), `sourceTabId` is
attached by `handleNewPost` from `sender.tab?.id` (absent when the message has
no sender tab). -/
structure Post where
  id : String
  platform : String
  author : Author
  content : String
  timestamp : Option Nat
  scrapedAt : Nat
  engagement : Option Engagement
  images : List String
  reposter : Option String
  sourceTabId : Option Nat
deriving DecidableEq

/-- Source: `const MAX_FEED_SIZE = 500` (background.js line 6). -/
def MAX_FEED_SIZE : Nat := 500

/-- The sort key `a.timestamp || a.scrapedAt` used by the chronological and
platform policies (background.js lines 193-194 etc.).  JavaScript `||` takes
the right operand when the left is falsy, so both an absent timestamp and a
present-but-zero timestamp fall back to `scrapedAt`. -/
def chronoKey (p : Post) : Nat :=
  match p.timestamp with
  | none => p.scrapedAt
  | some t => if t = 0 then p.scrapedAt else t

/-- The engagement score summed by the `engagement` sort policy
(background.js lines 210-221): `(a.engagement?.likes || 0) + (a.engagement?.retweets || 0)
+ (a.engagement?.reposts || 0) + (a.engagement?.boosts || 0) +
(a.engagement?.favorites || 0) + (a.engagement?.replies || 0)`. -/
def engSum (p : Post) : Nat :=
  match p.engagement with
  | none => 0
  | some e =>
      e.likes.getD 0 + e.retweets.getD 0 + e.reposts.getD 0 + e.boosts.getD 0 +
        e.favorites.getD 0 + e.replies.getD 0

/-- The preorder induced by a numeric comparator `(a, b) => key(b) - key(a)`
(descending by `key`): `a` may stay before `b` iff the comparator is ≤ 0. -/
def keyDescRel {α : Type} (key : α → Nat) : α → α → Prop :=
  fun a b => key b ≤ key a

/-- The preorder induced by a numeric comparator `(a, b) => key(a) - key(b)`
(ascending by `key`). -/
def keyAscRel {α : Type} (key : α → Nat) : α → α → Prop :=
  fun a b => key a ≤ key b

instance {α : Type} (key : α → Nat) : DecidableRel (keyDescRel key) :=
  fun a b => Nat.decLe (key b) (key a)

instance {α : Type} (key : α → Nat) : DecidableRel (keyAscRel key) :=
  fun a b => Nat.decLe (key a) (key b)

instance {α : Type} (key : α → Nat) : IsTotal α (keyDescRel key) :=
  ⟨fun a b => Nat.le_total (key b) (key a)⟩

instance {α : Type} (key : α → Nat) : IsTrans α (keyDescRel key) :=
  ⟨fun _ _ _ h1 h2 => Nat.le_trans h2 h1⟩

/-- The preorder of the `platform` policy comparator (background.js lines
227-235): first `platform` lexicographically ascending (`localeCompare`),
then `timestamp || scrapedAt` descending within a platform. -/
def platformRel (a b : Post) : Prop :=
  a.platform < b.platform ∨ (a.platform = b.platform ∧ chronoKey b ≤ chronoKey a)

instance : DecidableRel platformRel :=
  fun _ _ => inferInstanceAs (Decidable (_ ∨ _))

/-- Capacity enforcement at the end of `handleNewPost` (background.js lines
158-162): if the feed exceeds `MAX_FEED_SIZE`, sort by `scrapedAt` descending
and keep the first `MAX_FEED_SIZE` entries. -/
def trimFeed (feed : List Post) : List Post :=
  if MAX_FEED_SIZE < feed.length then
    (List.insertionSort (keyDescRel Post.scrapedAt) feed).take MAX_FEED_SIZE
  else feed

/-- Result of `handleNewPost`: the new feed and whether a `FEED_UPDATED`
notification was sent (it is sent only in the append branch). -/
structure UpsertResult where
  feed : List Post
  emitted : Bool
deriving DecidableEq

/-- Source function `handleNewPost(postData, tabId)` (background.js lines 140-166):
set `postData.sourceTabId = tabId`; find an existing entry with the same id
(`findIndex`, i.e. the first match); replace it in place if found, otherwise
push and notify the popup with `FEED_UPDATED`; finally enforce capacity.
There is no validation of `postData.id`. -/
def handleNewPost (feed : List Post) (postData : Post) (tabId : Option Nat) : UpsertResult :=
  let p : Post := { postData with sourceTabId := tabId }
  match feed.findIdx? (fun q => q.id == postData.id) with
  | some i => { feed := trimFeed (feed.set i p), emitted := false }
  | none => { feed := trimFeed (feed ++ [p]), emitted := true }

/-- Source function `cleanupTabPosts(tabId)` (background.js lines 109-112):
`unifiedFeed = unifiedFeed.filter(post => post.sourceTabId !== tabId)`. -/
def cleanupTabPosts (tabId : Nat) (feed : List Post) : List Post :=
  feed.filter (fun p => p.sourceTabId != some tabId)

/-- The background script's mutable state: the `unifiedFeed` array and the key
set of the `monitoredTabs` map. -/
structure BgState where
  unifiedFeed : List Post
  monitoredTabs : List Nat
deriving DecidableEq

/-- Source function `monitorTab` (background.js lines 83-95): `monitoredTabs.set(tab.id, ...)`.
Only the key set matters here; setting an existing key leaves it unchanged. -/
def monitorTab (s : BgState) (tabId : Nat) : BgState :=
  if tabId ∈ s.monitoredTabs then s
  else { s with monitoredTabs := tabId :: s.monitoredTabs }

/-- Source function `unmonitorTab(tabId)` (background.js lines 98-106): only when the tab is
currently monitored, remove it from the map and cascade-delete its posts via
`cleanupTabPosts`; otherwise nothing happens. -/
def unmonitorTab (s : BgState) (tabId : Nat) : BgState :=
  if tabId ∈ s.monitoredTabs then
    { unifiedFeed := cleanupTabPosts tabId s.unifiedFeed,
      monitoredTabs := s.monitoredTabs.erase tabId }
  else s

/-- Source function `getSortedFeed(sortBy = 'chronological')` (background.js lines 186-240):
copy the feed, then `switch (sortBy)` with the four named cases and no
default, so an unrecognized policy string returns the unsorted copy.  The
default parameter value applies only when the argument is absent. -/
def getSortedFeed (feed : List Post) (sortBy : Option String) : List Post :=
  let sb := sortBy.getD ("chronological")
  if sb = "chronological" then List.insertionSort (keyDescRel chronoKey) feed
  else if sb = "chronological-old" then List.insertionSort (keyAscRel chronoKey) feed
  else if sb = "engagement" then List.insertionSort (keyDescRel engSum) feed
  else if sb = "platform" then List.insertionSort platformRel feed
  else feed

/-- Outbound notifications sent via `notifyPopup` (background.js lines 155,
265, 269-273). -/
inductive Notif where
  | feedUpdated (newPost : Post)
  | feedCleared
deriving DecidableEq

/-- Inbound messages handled by the `chrome.runtime.onMessage` listener
(background.js lines 115-137). -/
inductive Msg where
  | newPost (record : Post) (senderTab : Option Nat)
  | getFeed (sortBy : Option String)
  | openPost (url : String)
  | refreshFeed
  | clearFeed

/-- What one dispatch of the message listener produces: the new state, the
optional feed response (`GET_FEED` only) and the notifications emitted. -/
structure DispatchResult where
  state : BgState
  response : Option (List Post)
  notifications : List Notif

/-- One turn of the message listener (background.js lines 115-137).
`OPEN_POST` and `REFRESH_FEED` only talk to the tabs API and do not touch the
feed state. -/
def dispatch (s : BgState) : Msg → DispatchResult
  | .newPost r tab =>
      let res := handleNewPost s.unifiedFeed r tab
      { state := { s with unifiedFeed := res.feed },
        response := none,
        notifications :=
          if res.emitted then [.feedUpdated { r with sourceTabId := tab }] else [] }
  | .getFeed sb =>
      { state := s, response := some (getSortedFeed s.unifiedFeed sb), notifications := [] }
  | .openPost _ => { state := s, response := none, notifications := [] }
  | .refreshFeed => { state := s, response := none, notifications := [] }
  | .clearFeed =>
      { state := { s with unifiedFeed := [] }, response := none,
        notifications := [.feedCleared] }

/-- The externally triggered operations that mutate the store: a message
dispatch, or the tab lifecycle callbacks that call `monitorTab` /
`unmonitorTab` (background.js lines 276-301). -/
inductive Op where
  | message (m : Msg)
  | monitor (tabId : Nat)
  | unmonitor (tabId : Nat)

/-- Apply one operation to the state. -/
def applyOp (s : BgState) : Op → BgState
  | .message m => (dispatch s m).state
  | .monitor t => monitorTab s t
  | .unmonitor t => unmonitorTab s t

/-- The state at process start: empty feed, no monitored tabs
(background.js lines 5, 9). -/
def initState : BgState := { unifiedFeed := [], monitoredTabs := [] }

/-- The state after a sequence of operations from process start. -/
def runOps (ops : List Op) : BgState :=
  ops.foldl applyOp initState

/-- Events that can occur during a cold start, in the order the event loop
happens to deliver them: completion of the `chrome.storage.local.get` promise
inside `loadFeedFromStorage` (background.js lines 178-183, invoked without
`await` at line 304, after the message listener was registered at line 115),
or an inbound message.  On load completion the code runs
`if (result.unifiedFeed) unifiedFeed = result.unifiedFeed`, unconditionally
overwriting the in-memory array. -/
inductive StartupEvent where
  | loadComplete (stored : Option (List Post))
  | msg (m : Msg)

/-- Effect of one startup event on the state. -/
def processStartupEvent (s : BgState) : StartupEvent → BgState
  | .loadComplete none => s
  | .loadComplete (some stored) => { s with unifiedFeed := stored }
  | .msg m => (dispatch s m).state

/-- Run a cold-start event sequence from the initial state. -/
def runStartup (events : List StartupEvent) : BgState :=
  events.foldl processStartupEvent initState

/-! ## Helper lemmas -/

/-- Writing the element already at position `i` back into a list is the
identity. -/
theorem set_self_eq {α : Type} : ∀ (l : List α) (i : Nat) (h : i < l.length),
    l.set i (l[i]) = l
  | _ :: _, 0, _ => rfl
  | a :: l, i + 1, h =>
      congrArg (a :: ·) (set_self_eq l i (Nat.lt_of_succ_lt_succ h))

/-- Lemma: `trimFeed` does nothing while the feed is within capacity. -/
theorem trimFeed_eq_of_le {f : List Post} (h : f.length ≤ MAX_FEED_SIZE) :
    trimFeed f = f := by
  unfold trimFeed
  rw [if_neg (by omega)]

/-- After `trimFeed` the feed is always within capacity. -/
theorem trimFeed_length_le (f : List Post) : (trimFeed f).length ≤ MAX_FEED_SIZE := by
  unfold trimFeed
  split
  · simp [List.length_take]
  · omega

/-- Lemma: `trimFeed` only ever discards entries; it invents none. -/
theorem trimFeed_subset {f : List Post} : ∀ p ∈ trimFeed f, p ∈ f := by
  intro p hp
  unfold trimFeed at hp
  split at hp
  · exact (List.perm_insertionSort _ f).subset ((List.take_sublist _ _).subset hp)
  · exact hp

/-- Lemma: `trimFeed` preserves distinctness of the stored ids. -/
theorem trimFeed_nodup_ids {f : List Post} (h : (f.map Post.id).Nodup) :
    ((trimFeed f).map Post.id).Nodup := by
  unfold trimFeed
  split
  · rw [List.map_take]
    exact (List.take_sublist _ _).nodup
      (((List.perm_insertionSort (keyDescRel Post.scrapedAt) f).map Post.id).symm.nodup h)
  · exact h

/-- If the ingested id is not in the store, `findIndex` fails. -/
theorem findIdx?_id_none {f : List Post} {rid : String} (h : rid ∉ f.map Post.id) :
    f.findIdx? (fun q => q.id == rid) = none := by
  rw [List.findIdx?_eq_none_iff]
  intro x hx
  rw [beq_eq_false_iff_ne]
  intro he
  exact h (he ▸ List.mem_map_of_mem Post.id hx)

/-- With distinct ids, `findIndex` locates exactly the position holding the
ingested id. -/
theorem findIdx?_id_some {f : List Post} {rid : String} {i : Nat} (hi : i < f.length)
    (hnd : (f.map Post.id).Nodup) (hid : (f[i]).id = rid) :
    f.findIdx? (fun q => q.id == rid) = some i := by
  rw [List.findIdx?_eq_some_iff_findIdx_eq]
  refine ⟨hi, (List.findIdx_eq hi).mpr ⟨by simp [hid], ?_⟩⟩
  intro j hj
  have hjlen : j < f.length := Nat.lt_trans hj hi
  rw [beq_eq_false_iff_ne]
  intro he
  have hmapj : j < (f.map Post.id).length := by simpa using hjlen
  have hmapi : i < (f.map Post.id).length := by simpa using hi
  have heq : (f.map Post.id)[j] = (f.map Post.id)[i] := by
    rw [List.getElem_map, List.getElem_map, he, hid]
  have := (hnd.getElem_inj_iff).mp heq
  omega

/-- A successful `findIndex` result points at an entry carrying the id. -/
theorem findIdx?_id_found {f : List Post} {rid : String} {i : Nat}
    (hf : f.findIdx? (fun q => q.id == rid) = some i) :
    ∃ hi : i < f.length, (f[i]).id = rid := by
  obtain ⟨hi, hfi⟩ := List.findIdx?_eq_some_iff_findIdx_eq.mp hf
  refine ⟨hi, beq_iff_eq.mp ?_⟩
  have := (List.findIdx_eq (p := fun q => q.id == rid) hi).mp hfi
  exact this.1

/-- Append branch of `handleNewPost`: a brand-new id is pushed and the
notification is emitted. -/
theorem handleNewPost_append {f : List Post} {r : Post} {t : Option Nat}
    (h : r.id ∉ f.map Post.id) :
    handleNewPost f r t =
      ⟨trimFeed (f ++ [{ r with sourceTabId := t }]), true⟩ := by
  unfold handleNewPost
  rw [findIdx?_id_none h]

/-- Replace branch of `handleNewPost`: an existing id is overwritten in place
and no notification is emitted. -/
theorem handleNewPost_replace {f : List Post} {r : Post} {t : Option Nat} {i : Nat}
    (hi : i < f.length) (hnd : (f.map Post.id).Nodup) (hid : (f[i]).id = r.id) :
    handleNewPost f r t = ⟨trimFeed (f.set i { r with sourceTabId := t }), false⟩ := by
  unfold handleNewPost
  rw [findIdx?_id_some hi hnd hid]

/-- Lemma: `FEED_UPDATED` is emitted exactly when the ingested id was absent. -/
theorem handleNewPost_emitted_iff (f : List Post) (r : Post) (t : Option Nat) :
    (handleNewPost f r t).emitted = true ↔ r.id ∉ f.map Post.id := by
  unfold handleNewPost
  cases hf : f.findIdx? (fun q => q.id == r.id) with
  | none =>
      have hall := List.findIdx?_eq_none_iff.mp hf
      simp only []
      constructor
      · intro _ hmem
        obtain ⟨p, hp, he⟩ := List.mem_map.mp hmem
        have := hall p hp
        rw [he] at this
        simp at this
      · intro _
        trivial
  | some i =>
      obtain ⟨hi, hid⟩ := findIdx?_id_found hf
      simp only []
      constructor
      · intro hcon
        exact absurd hcon (by simp)
      · intro hcon
        exact absurd (hid ▸ List.mem_map_of_mem Post.id (List.getElem_mem hi)) hcon

/-- Lemma: `handleNewPost` always leaves the feed within capacity. -/
theorem handleNewPost_length_le (f : List Post) (r : Post) (t : Option Nat) :
    (handleNewPost f r t).feed.length ≤ MAX_FEED_SIZE := by
  unfold handleNewPost
  cases f.findIdx? (fun q => q.id == r.id) <;> exact trimFeed_length_le _

/-- Lemma: `handleNewPost` preserves distinctness of the stored ids. -/
theorem handleNewPost_nodup_ids {f : List Post} (r : Post) (t : Option Nat)
    (h : (f.map Post.id).Nodup) :
    ((handleNewPost f r t).feed.map Post.id).Nodup := by
  unfold handleNewPost
  cases hf : f.findIdx? (fun q => q.id == r.id) with
  | none =>
      have hnm : r.id ∉ f.map Post.id := by
        intro hmem
        obtain ⟨p, hp, he⟩ := List.mem_map.mp hmem
        have := List.findIdx?_eq_none_iff.mp hf p hp
        rw [he] at this
        simp at this
      simp only []
      apply trimFeed_nodup_ids
      rw [List.map_append]
      rw [List.nodup_append]
      exact ⟨h, List.nodup_singleton _, List.disjoint_singleton.mpr hnm⟩
  | some i =>
      obtain ⟨hi, hid⟩ := findIdx?_id_found hf
      simp only []
      apply trimFeed_nodup_ids
      have hmapi : i < (f.map Post.id).length := by simpa using hi
      have hids : (f.set i { r with sourceTabId := t }).map Post.id = f.map Post.id := by
        rw [List.map_set]
        have : r.id = (f.map Post.id)[i] := by rw [List.getElem_map, hid]
        rw [show (({ r with sourceTabId := t } : Post).id) = (f.map Post.id)[i] from this]
        exact set_self_eq _ _ hmapi
      rw [hids]
      exact h

/-- The two-part store invariant: bounded size and id-distinctness. -/
def FeedInv (s : BgState) : Prop :=
  s.unifiedFeed.length ≤ MAX_FEED_SIZE ∧ (s.unifiedFeed.map Post.id).Nodup

/-- Every single operation preserves the store invariant. -/
theorem feedInv_applyOp {s : BgState} (o : Op) (h : FeedInv s) : FeedInv (applyOp s o) := by
  cases o with
  | message m =>
      cases m with
      | newPost r tab =>
          exact ⟨handleNewPost_length_le _ _ _, handleNewPost_nodup_ids _ _ h.2⟩
      | getFeed sb => simpa [applyOp, dispatch, FeedInv] using h
      | openPost u => simpa [applyOp, dispatch, FeedInv] using h
      | refreshFeed => simpa [applyOp, dispatch, FeedInv] using h
      | clearFeed => exact ⟨by simp [applyOp, dispatch], by simp [applyOp, dispatch]⟩
  | monitor t =>
      by_cases hm : t ∈ s.monitoredTabs
      · have he : applyOp s (Op.monitor t) = s := by simp [applyOp, monitorTab, hm]
        rw [he]
        exact h
      · have he : applyOp s (Op.monitor t) =
            { s with monitoredTabs := t :: s.monitoredTabs } := by
          simp [applyOp, monitorTab, hm]
        rw [he]
        exact ⟨h.1, h.2⟩
  | unmonitor t =>
      by_cases hm : t ∈ s.monitoredTabs
      · have he : applyOp s (Op.unmonitor t) =
            { unifiedFeed := cleanupTabPosts t s.unifiedFeed,
              monitoredTabs := s.monitoredTabs.erase t } := by
          simp [applyOp, unmonitorTab, hm]
        rw [he]
        exact ⟨Nat.le_trans (List.length_filter_le _ _) h.1,
          ((List.filter_sublist _).map Post.id).nodup h.2⟩
      · have he : applyOp s (Op.unmonitor t) = s := by simp [applyOp, unmonitorTab, hm]
        rw [he]
        exact h

/-- The invariant holds in every reachable state. -/
theorem feedInv_runOps (ops : List Op) : FeedInv (runOps ops) := by
  have hstep : ∀ (l : List Op) (s : BgState), FeedInv s → FeedInv (l.foldl applyOp s) := by
    intro l
    induction l with
    | nil => exact fun s h => h
    | cons o os ih =>
        intro s hs
        rw [List.foldl_cons]
        exact ih _ (feedInv_applyOp o hs)
  exact hstep ops initState ⟨by simp [initState], by simp [initState]⟩

/-- Stability of `orderedInsert` for a descending numeric key: filtering one
key class commutes with the insertion. -/
theorem filter_orderedInsert {α : Type} (key : α → Nat) (k : Nat) (x : α) :
    ∀ l : List α,
      (l.orderedInsert (keyDescRel key) x).filter (fun p => key p == k) =
        if key x = k then x :: l.filter (fun p => key p == k)
        else l.filter (fun p => key p == k)
  | [] => by
      by_cases hk : key x = k <;>
        simp [List.orderedInsert, List.filter_cons, beq_iff_eq, hk]
  | b :: l => by
      by_cases hr : keyDescRel key x b
      · rw [List.orderedInsert, if_pos hr]
        by_cases hk : key x = k <;> simp [List.filter_cons, beq_iff_eq, hk]
      · rw [List.orderedInsert, if_neg hr]
        have hb : ¬ key b ≤ key x := hr
        by_cases hk : key x = k
        · have hbk : key b ≠ k := by omega
          simp [List.filter_cons, beq_iff_eq, hbk, filter_orderedInsert key k x l, hk]
        · by_cases hbk : key b = k <;>
            simp [List.filter_cons, beq_iff_eq, hbk, filter_orderedInsert key k x l, hk]

/-- Stability of the stable sort for a descending numeric key: each key class
keeps its original relative order. -/
theorem filter_insertionSort {α : Type} (key : α → Nat) (k : Nat) :
    ∀ l : List α,
      (List.insertionSort (keyDescRel key) l).filter (fun p => key p == k) =
        l.filter (fun p => key p == k)
  | [] => rfl
  | a :: l => by
      rw [List.insertionSort, filter_orderedInsert]
      by_cases hk : key a = k <;>
        simp [List.filter_cons, beq_iff_eq, hk, filter_insertionSort key k l]

/-! ## Concrete fixture data -/

/-- A minimal author object. -/
def defaultAuthor : Author := { name := "a", handle := "a", avatar := none }

/-- Filler post number `i`: distinct id, `scrapedAt` strictly decreasing in
`i` so that `feed500` is already sorted by observation recency. -/
def mkFiller (i : Nat) : Post :=
  { id := toString i, platform := "twitter", author := defaultAuthor, content := "",
    timestamp := none, scrapedAt := 1000 - i, engagement := none, images := [],
    reposter := none, sourceTabId := some 1 }

/-- A store at exactly full capacity (500 posts, distinct ids, `scrapedAt`
from 1000 down to 501). -/
def feed500 : List Post := (List.range 500).map mkFiller

/-- A fresh post whose `scrapedAt` (1) is older than everything in
`feed500`, so capacity trimming evicts it immediately. -/
def newbie : Post :=
  { id := "fresh", platform := "twitter", author := defaultAuthor, content := "",
    timestamp := none, scrapedAt := 1, engagement := none, images := [],
    reposter := none, sourceTabId := none }

/-- Fact: `feed500` has exactly 500 entries. -/
theorem feed500_length : feed500.length = 500 := by
  simp [feed500]

/-- Fact: `feed500 ++ [newbie]` is sorted by `scrapedAt` descending. -/
theorem feed500_newbie_sorted :
    List.Sorted (keyDescRel Post.scrapedAt) (feed500 ++ [newbie]) := by
  rw [List.Sorted, List.pairwise_append]
  refine ⟨?_, List.pairwise_singleton _ _, ?_⟩
  · rw [feed500, List.pairwise_map]
    refine (List.pairwise_lt_range 500).imp ?_
    intro a b hab
    show (mkFiller b).scrapedAt ≤ (mkFiller a).scrapedAt
    simp only [mkFiller]
    omega
  · intro a ha b hb
    rw [List.mem_singleton] at hb
    subst hb
    rw [feed500, List.mem_map] at ha
    obtain ⟨i, hi, rfl⟩ := ha
    rw [List.mem_range] at hi
    show (newbie).scrapedAt ≤ (mkFiller i).scrapedAt
    simp only [mkFiller, newbie]
    omega

/-- Trimming the overfull `feed500 ++ [newbie]` evicts exactly `newbie`. -/
theorem trimFeed_feed500_newbie : trimFeed (feed500 ++ [newbie]) = feed500 := by
  unfold trimFeed
  rw [if_pos (by simp [feed500_length, MAX_FEED_SIZE])]
  rw [List.Sorted.insertionSort_eq feed500_newbie_sorted]
  exact List.take_left' feed500_length

/-! ## C1: capacity bound -/

/-- C1: starting from the empty store, after any sequence of operations
(upserts with capacity enforcement, cascade deletes, clears, tab bookkeeping)
the store holds at most `MAX_FEED_SIZE = 500` records; and whenever an upsert
overfills the store, the trim retains exactly 500 records forming, together
with the dropped ones, a permutation of the overfull feed, every retained
record having a `scrapedAt` at least as recent as every dropped record. -/
theorem feedStore_capacity_bound :
    (∀ ops : List Op, (runOps ops).unifiedFeed.length ≤ MAX_FEED_SIZE) ∧
    (∀ f : List Post, MAX_FEED_SIZE < f.length →
      (trimFeed f).length = MAX_FEED_SIZE ∧
      ∃ dropped : List Post, f.Perm (trimFeed f ++ dropped) ∧
        ∀ a ∈ trimFeed f, ∀ b ∈ dropped, b.scrapedAt ≤ a.scrapedAt) := by
  constructor
  · exact fun ops => (feedInv_runOps ops).1
  · intro f hf
    have hTrim : trimFeed f =
        (List.insertionSort (keyDescRel Post.scrapedAt) f).take MAX_FEED_SIZE := by
      unfold trimFeed
      rw [if_pos hf]
    have hlen : (List.insertionSort (keyDescRel Post.scrapedAt) f).length = f.length :=
      List.length_insertionSort _ _
    constructor
    · rw [hTrim, List.length_take, hlen]
      omega
    · refine ⟨(List.insertionSort (keyDescRel Post.scrapedAt) f).drop MAX_FEED_SIZE, ?_, ?_⟩
      · rw [hTrim, List.take_append_drop]
        exact (List.perm_insertionSort _ f).symm
      · have hsorted : List.Sorted (keyDescRel Post.scrapedAt)
            (List.insertionSort (keyDescRel Post.scrapedAt) f) :=
          List.sorted_insertionSort _ f
        have hpw := List.pairwise_append.mp
          (by rw [List.take_append_drop]; exact hsorted :
            List.Pairwise (keyDescRel Post.scrapedAt)
              ((List.insertionSort (keyDescRel Post.scrapedAt) f).take MAX_FEED_SIZE ++
                (List.insertionSort (keyDescRel Post.scrapedAt) f).drop MAX_FEED_SIZE))
        intro a ha b hb
        rw [hTrim] at ha
        exact hpw.2.2 a ha b hb

/-- Witness for C1 at a concrete overfull feed of 501 records. -/
theorem feedStore_capacity_bound_witness :
    (trimFeed (feed500 ++ [newbie])).length = MAX_FEED_SIZE :=
  (feedStore_capacity_bound.2 (feed500 ++ [newbie])
    (by simp [feed500_length, MAX_FEED_SIZE])).1

/-! ## C2: one record per id, in-place replacement -/

/-- C2: every reachable store has pairwise-distinct ids, and when the
ingested id is already present at position `i` of a within-capacity store,
`handleNewPost` replaces exactly that entry wholesale (with the sender's tab
id attached) at its existing position, leaving the length unchanged — it
never appends a second entry for the id. -/
theorem feedStore_upsert_unique :
    (∀ ops : List Op, ((runOps ops).unifiedFeed.map Post.id).Nodup) ∧
    (∀ (f : List Post) (r : Post) (t : Option Nat) (i : Nat) (hi : i < f.length),
      (f.map Post.id).Nodup → f.length ≤ MAX_FEED_SIZE → (f[i]).id = r.id →
      (handleNewPost f r t).feed = f.set i { r with sourceTabId := t } ∧
      (handleNewPost f r t).feed.length = f.length) := by
  constructor
  · exact fun ops => (feedInv_runOps ops).2
  · intro f r t i hi hnd hlen hid
    have h1 := handleNewPost_replace (t := t) hi hnd hid
    have h2 : trimFeed (f.set i { r with sourceTabId := t }) =
        f.set i { r with sourceTabId := t } :=
      trimFeed_eq_of_le (by rw [List.length_set]; exact hlen)
    have h3 : (handleNewPost f r t).feed = f.set i { r with sourceTabId := t } := by
      rw [h1]
      exact h2
    exact ⟨h3, by rw [h3, List.length_set]⟩

/-- First post of the small two-element fixture store. -/
def pA : Post :=
  { id := "a1", platform := "bluesky", author := defaultAuthor, content := "first",
    timestamp := some 30, scrapedAt := 40, engagement := none, images := [],
    reposter := none, sourceTabId := some 7 }

/-- Second post of the small fixture store, produced by tab 7. -/
def pB : Post :=
  { id := "b2", platform := "mastodon", author := defaultAuthor, content := "second",
    timestamp := some 20, scrapedAt := 50, engagement := none, images := [],
    reposter := none, sourceTabId := some 7 }

/-- A re-announcement of `pB`'s id with changed fields. -/
def rB : Post :=
  { id := "b2", platform := "mastodon", author := defaultAuthor, content := "updated",
    timestamp := some 20, scrapedAt := 90, engagement := none, images := [],
    reposter := none, sourceTabId := none }

/-- Witness for C2 on a concrete two-element store. -/
theorem feedStore_upsert_unique_witness :
    (handleNewPost [pA, pB] rB (some 9)).feed =
      [pA, pB].set 1 { rB with sourceTabId := some 9 } :=
  (feedStore_upsert_unique.2 [pA, pB] rB (some 9) 1 (by decide) (by decide)
    (by decide) (by decide)).1

/-! ## C3: empty-id ingestion -/

/-- A record whose id is the empty string. -/
def emptyIdPost : Post :=
  { id := "", platform := "mastodon", author := defaultAuthor, content := "c",
    timestamp := some 5, scrapedAt := 10, engagement := none, images := [],
    reposter := none, sourceTabId := none }

/-- C3 counterexample: `handleNewPost` performs no validation, so ingesting a
record with an empty id into the empty store is not a rejecting no-op — the
record is stored. -/
theorem emptyId_ingestion_stored_cex :
    (handleNewPost [] emptyIdPost none).feed = [emptyIdPost] ∧
    (handleNewPost [] emptyIdPost none).feed.length ≠ 0 := by
  exact ⟨rfl, by decide⟩

/-- C3 amended: a record with an empty id is accepted like any other record —
appended (below capacity, id absent) with the `FEED_UPDATED` signal, with no
invalid-input rejection anywhere in `handleNewPost`. -/
theorem emptyId_ingestion_accepted :
    ∀ (f : List Post) (r : Post) (t : Option Nat),
      r.id = "" → f.length < MAX_FEED_SIZE → r.id ∉ f.map Post.id →
      (handleNewPost f r t).feed = f ++ [{ r with sourceTabId := t }] ∧
      (handleNewPost f r t).emitted = true := by
  intro f r t _hid hlen hnm
  rw [handleNewPost_append hnm]
  refine ⟨?_, rfl⟩
  show trimFeed (f ++ [{ r with sourceTabId := t }]) = _
  exact trimFeed_eq_of_le (by rw [List.length_append]; simp; omega)

/-- Witness for the amended C3 at the empty store. -/
theorem emptyId_ingestion_accepted_witness :
    (handleNewPost [] emptyIdPost none).emitted = true :=
  (emptyId_ingestion_accepted [] emptyIdPost none rfl (by decide) (by decide)).2

/-! ## C4: FEED_UPDATED iff new, idempotent re-ingestion -/

/-- Fact: `newbie.id` does not occur among the filler ids. -/
theorem newbie_not_mem_feed500 : newbie.id ∉ feed500.map Post.id := by
  decide

/-- Ingesting `newbie` into the full `feed500` pushes it and then capacity
trimming immediately evicts it again (its `scrapedAt` is the oldest). -/
theorem handleNewPost_feed500_newbie :
    handleNewPost feed500 newbie none = ⟨feed500, true⟩ := by
  have h := handleNewPost_append (t := none) newbie_not_mem_feed500
  calc handleNewPost feed500 newbie none
      = ⟨trimFeed (feed500 ++ [newbie]), true⟩ := h
    _ = ⟨feed500, true⟩ := by rw [trimFeed_feed500_newbie]

/-- C4 counterexample: with the store at capacity and the new record's
`scrapedAt` the oldest, ingesting the identical record twice leaves the store
unchanged both times, yet a `FEED_UPDATED` is emitted on the second ingestion
as well (the record was evicted in between, so its id is again absent). -/
theorem reingest_second_feedUpdated_cex :
    (handleNewPost feed500 newbie none).feed = feed500 ∧
    (handleNewPost feed500 newbie none).emitted = true ∧
    (handleNewPost (handleNewPost feed500 newbie none).feed newbie none).emitted = true := by
  refine ⟨congrArg UpsertResult.feed handleNewPost_feed500_newbie,
    congrArg UpsertResult.emitted handleNewPost_feed500_newbie, ?_⟩
  rw [handleNewPost_feed500_newbie]
  show (handleNewPost feed500 newbie none).emitted = true
  rw [handleNewPost_feed500_newbie]

/-- C4 amended: a `FEED_UPDATED{newPost}` notification is emitted iff the
ingested id was not already in the store; and provided the store is below
capacity (so the new record is not immediately evicted by the trim),
ingesting the same id twice with an identical payload appends once, emits one
notification, and the second ingestion changes nothing and emits nothing. -/
theorem feedUpdated_iff_new :
    (∀ (s : BgState) (r : Post) (t : Option Nat),
      (dispatch s (.newPost r t)).notifications =
          [.feedUpdated { r with sourceTabId := t }] ↔
        r.id ∉ s.unifiedFeed.map Post.id) ∧
    (∀ (f : List Post) (r : Post) (t : Option Nat),
      (f.map Post.id).Nodup → f.length < MAX_FEED_SIZE → r.id ∉ f.map Post.id →
      (handleNewPost f r t).feed = f ++ [{ r with sourceTabId := t }] ∧
      (handleNewPost f r t).emitted = true ∧
      handleNewPost (handleNewPost f r t).feed r t =
        ⟨(handleNewPost f r t).feed, false⟩) := by
  constructor
  · intro s r t
    show (if (handleNewPost s.unifiedFeed r t).emitted then _ else []) = _ ↔ _
    by_cases h : (handleNewPost s.unifiedFeed r t).emitted
    · rw [if_pos h]
      simp only [true_iff]
      exact (handleNewPost_emitted_iff _ _ _).mp h
    · rw [if_neg h]
      constructor
      · intro hcon
        exact absurd hcon (by simp)
      · intro hnm
        exact absurd ((handleNewPost_emitted_iff _ _ _).mpr hnm) h
  · intro f r t hnd hlen hnm
    have hfeed1 : (handleNewPost f r t).feed = f ++ [{ r with sourceTabId := t }] := by
      rw [handleNewPost_append hnm]
      show trimFeed _ = _
      exact trimFeed_eq_of_le (by rw [List.length_append]; simp; omega)
    have hemit1 : (handleNewPost f r t).emitted = true := by
      rw [handleNewPost_append hnm]
    refine ⟨hfeed1, hemit1, ?_⟩
    have hi : f.length < (f ++ [{ r with sourceTabId := t }]).length := by simp
    have hnd1 : ((f ++ [{ r with sourceTabId := t }]).map Post.id).Nodup := by
      rw [List.map_append, List.nodup_append]
      exact ⟨hnd, List.nodup_singleton _, List.disjoint_singleton.mpr hnm⟩
    have hget : ((f ++ [{ r with sourceTabId := t }])[f.length]) =
        { r with sourceTabId := t } := by
      rw [List.getElem_append_right (Nat.le_refl _)]
      simp
    have hgete : ((f ++ [{ r with sourceTabId := t }])[f.length]).id = r.id := by
      rw [hget]
    have hrep := handleNewPost_replace (t := t) hi hnd1 hgete
    have hset : (f ++ [{ r with sourceTabId := t }]).set f.length
        { r with sourceTabId := t } = f ++ [{ r with sourceTabId := t }] := by
      have h0 := set_self_eq (f ++ [{ r with sourceTabId := t }]) f.length hi
      rw [hget] at h0
      exact h0
    rw [hfeed1, hrep, hset,
      trimFeed_eq_of_le (by rw [List.length_append]; simp; omega)]

/-- Witness for the amended C4 on a small below-capacity store. -/
theorem feedUpdated_iff_new_witness :
    handleNewPost (handleNewPost [pA] rB none).feed rB none =
      ⟨(handleNewPost [pA] rB none).feed, false⟩ :=
  (feedUpdated_iff_new.2 [pA] rB none (by decide) (by decide) (by decide)).2.2

/-! ## C5: startup ordering -/

/-- A post already persisted in durable storage before this cold start. -/
def storedPost : Post :=
  { id := "persisted", platform := "twitter", author := defaultAuthor, content := "old",
    timestamp := some 100, scrapedAt := 100, engagement := none, images := [],
    reposter := none, sourceTabId := some 2 }

/-- A post announced by a producer while the storage read is still pending. -/
def racePost : Post :=
  { id := "early", platform := "bluesky", author := defaultAuthor, content := "race",
    timestamp := some 200, scrapedAt := 200, engagement := none, images := [],
    reposter := none, sourceTabId := some 3 }

/-- C5 evidence: the message listener is registered (background.js line 115)
before `loadFeedFromStorage()` is invoked without `await` (line 304), so the
event order "`NEW_POST` first, load completion second" is admissible on a
cold start.  In that order the ingested post is applied to the still-empty
in-memory feed and then the load completion overwrites `unifiedFeed`
wholesale, silently losing the accepted post — there is no startup barrier. -/
theorem startup_race_loses_post :
    (runStartup [.msg (.newPost racePost none),
        .loadComplete (some [storedPost])]).unifiedFeed = [storedPost] ∧
    racePost.id ∉ ([storedPost].map Post.id) := by
  exact ⟨rfl, by decide⟩

/-! ## C6: cascade delete -/

/-- C6: stopping a currently monitored session removes exactly the posts
whose `sourceTabId` is that session and keeps every other post; stopping an
unknown session id changes nothing at all. -/
theorem cascade_delete_exact :
    ∀ (s : BgState) (tid : Nat),
      (tid ∈ s.monitoredTabs →
        ∀ p : Post, p ∈ (unmonitorTab s tid).unifiedFeed ↔
          p ∈ s.unifiedFeed ∧ p.sourceTabId ≠ some tid) ∧
      (tid ∉ s.monitoredTabs → unmonitorTab s tid = s) := by
  intro s tid
  constructor
  · intro hmem p
    unfold unmonitorTab
    rw [if_pos hmem]
    show p ∈ cleanupTabPosts tid s.unifiedFeed ↔ _
    unfold cleanupTabPosts
    rw [List.mem_filter, bne_iff_ne]
  · intro hnm
    unfold unmonitorTab
    rw [if_neg hnm]

/-- A post produced by tab 8. -/
def pC8 : Post :=
  { id := "c3", platform := "twitter", author := defaultAuthor, content := "third",
    timestamp := some 25, scrapedAt := 60, engagement := none, images := [],
    reposter := none, sourceTabId := some 8 }

/-- A store with posts from tabs 7 and 8, with tab 7 monitored. -/
def mixedState : BgState := { unifiedFeed := [pB, pC8], monitoredTabs := [7] }

/-- Witness for C6: after stopping tab 7, the tab-8 post is retained. -/
theorem cascade_delete_exact_witness :
    pC8 ∈ (unmonitorTab mixedState 7).unifiedFeed ↔
      pC8 ∈ mixedState.unifiedFeed ∧ pC8.sourceTabId ≠ some 7 :=
  (cascade_delete_exact mixedState 7).1 (by decide) pC8

/-! ## C7: engagement normalization and sort -/

/-- A mastodon-shaped record: its producer fills `replies`/`boosts`/
`favorites` and leaves the canonical `reposts`/`likes` fields absent
(mastodon-scraper.js lines 185-189). -/
def mastodonEng : Engagement :=
  { replies := some 1, reposts := none, likes := none, retweets := none,
    boosts := some 5, favorites := some 2 }

/-- The mastodon record carrying `mastodonEng`. -/
def mastodonPost : Post :=
  { id := "m1", platform := "mastodon", author := defaultAuthor, content := "toot",
    timestamp := some 50, scrapedAt := 60, engagement := some mastodonEng,
    images := [], reposter := none, sourceTabId := none }

/-- C7 counterexample: `handleNewPost` stores the record verbatim — the
stored entry still carries `boosts = 5` and `favorites = 2` while the
canonical `reposts` and `likes` fields remain absent, so no normalization to
the canonical triple happens at ingestion. -/
theorem engagement_not_normalized_cex :
    (handleNewPost [] mastodonPost none).feed = [mastodonPost] ∧
    mastodonPost.engagement = some mastodonEng ∧
    mastodonEng.reposts = none ∧ mastodonEng.likes = none ∧
    mastodonEng.boosts = some 5 ∧ mastodonEng.favorites = some 2 := by
  exact ⟨rfl, rfl, rfl, rfl, rfl, rfl⟩

/-- C7 amended: records are stored with their platform-specific engagement
fields untouched (every stored record is an ingested record verbatim, up to
the attached `sourceTabId`), and the `engagement` policy sorts the snapshot
descending by the sum of all six recognized counters (likes, retweets,
reposts, boosts, favorites, replies), each absent counter — or a wholly
absent engagement object — contributing 0. -/
theorem engagement_stored_verbatim :
    (∀ (f : List Post) (r : Post) (t : Option Nat) (p : Post),
      p ∈ (handleNewPost f r t).feed → p ∈ f ∨ p = { r with sourceTabId := t }) ∧
    (∀ f : List Post,
      (getSortedFeed f (some ("engagement"))).Perm f ∧
      List.Sorted (keyDescRel engSum) (getSortedFeed f (some ("engagement")))) := by
  constructor
  · intro f r t p hp
    unfold handleNewPost at hp
    cases hf : f.findIdx? (fun q => q.id == r.id) with
    | some i =>
        rw [hf] at hp
        have hp2 : p ∈ f.set i { r with sourceTabId := t } := trimFeed_subset p hp
        exact List.mem_or_eq_of_mem_set hp2
    | none =>
        rw [hf] at hp
        have hp2 : p ∈ f ++ [{ r with sourceTabId := t }] := trimFeed_subset p hp
        rcases List.mem_append.mp hp2 with h | h
        · exact Or.inl h
        · exact Or.inr (List.mem_singleton.mp h)
  · intro f
    have hgs : getSortedFeed f (some ("engagement")) =
        List.insertionSort (keyDescRel engSum) f := by
      rfl
    rw [hgs]
    exact ⟨List.perm_insertionSort _ f, List.sorted_insertionSort _ f⟩

/-- Witness for the amended C7: the stored mastodon record is the ingested
one, verbatim. -/
theorem engagement_stored_verbatim_witness :
    mastodonPost ∈ ([] : List Post) ∨
      mastodonPost = { mastodonPost with sourceTabId := none } :=
  engagement_stored_verbatim.1 [] mastodonPost none mastodonPost
    (by
      have h : (handleNewPost [] mastodonPost none).feed = [mastodonPost] := rfl
      rw [h]
      exact List.mem_singleton.mpr rfl)

/-! ## C8: unknown sort policy -/

/-- A post with the older `timestamp` of the C8 pair. -/
def oldPost : Post :=
  { id := "old", platform := "twitter", author := defaultAuthor, content := "o",
    timestamp := some 10, scrapedAt := 10, engagement := none, images := [],
    reposter := none, sourceTabId := some 1 }

/-- A post with the newer `timestamp` of the C8 pair. -/
def freshPost : Post :=
  { id := "fr", platform := "twitter", author := defaultAuthor, content := "f",
    timestamp := some 20, scrapedAt := 20, engagement := none, images := [],
    reposter := none, sourceTabId := some 1 }

/-- C8 counterexample: the `switch` has no default case, so an unknown policy
string returns the snapshot in its original collection order — which differs
from the chronological (newest first) order on this two-post snapshot. -/
theorem unknown_policy_not_chronological_cex :
    getSortedFeed [oldPost, freshPost] (some ("bogus")) = [oldPost, freshPost] ∧
    getSortedFeed [oldPost, freshPost] (some ("chronological")) = [freshPost, oldPost] ∧
    ([oldPost, freshPost] : List Post) ≠ [freshPost, oldPost] := by
  refine ⟨rfl, rfl, by decide⟩

/-- C8 amended: for every policy string other than the four recognized ones
the sort function does not fail and returns the snapshot unchanged, in its
original collection order (not re-sorted chronologically). -/
theorem unknown_policy_returns_unsorted :
    ∀ (f : List Post) (pol : String),
      pol ≠ "chronological" → pol ≠ "chronological-old" →
      pol ≠ "engagement" → pol ≠ "platform" →
      getSortedFeed f (some pol) = f := by
  intro f pol h1 h2 h3 h4
  unfold getSortedFeed
  rw [Option.getD_some, if_neg h1, if_neg h2, if_neg h3, if_neg h4]

/-- Witness for the amended C8 at the policy string "bogus". -/
theorem unknown_policy_returns_unsorted_witness :
    getSortedFeed [oldPost] (some ("bogus")) = [oldPost] :=
  unknown_policy_returns_unsorted [oldPost] "bogus" (by decide) (by decide)
    (by decide) (by decide)

/-! ## C9: chronological policy -/

/-- Modelled from the spec's words: the chronological key written as
`timestamp ?? scrapedAt`, i.e. `scrapedAt` is used only when `timestamp` is
absent — in particular a present-but-zero timestamp would be used as the
key.  The code (`timestamp || scrapedAt`) differs on that zero case. -/
def specChronoKey (p : Post) : Nat := p.timestamp.getD p.scrapedAt

/-- A post whose `timestamp` is present but zero and whose `scrapedAt` is
large. -/
def zeroTsPost : Post :=
  { id := "zero", platform := "twitter", author := defaultAuthor, content := "z",
    timestamp := some 0, scrapedAt := 100, engagement := none, images := [],
    reposter := none, sourceTabId := some 1 }

/-- A post with a mid-range `timestamp` and small `scrapedAt`. -/
def midTsPost : Post :=
  { id := "mid", platform := "twitter", author := defaultAuthor, content := "m",
    timestamp := some 50, scrapedAt := 10, engagement := none, images := [],
    reposter := none, sourceTabId := some 1 }

/-- C9 counterexample: JavaScript `timestamp || scrapedAt` treats a zero
timestamp as falsy, so `zeroTsPost` sorts by its `scrapedAt` (100) and comes
first; under the claimed `??` key (zero timestamp kept) the result would have
to be descending by `specChronoKey`, which it is not. -/
theorem chronological_zero_timestamp_cex :
    getSortedFeed [zeroTsPost, midTsPost] (some ("chronological")) =
      [zeroTsPost, midTsPost] ∧
    ¬ List.Sorted (keyDescRel specChronoKey)
        (getSortedFeed [zeroTsPost, midTsPost] (some ("chronological"))) := by
  refine ⟨rfl, ?_⟩
  intro hcon
  have h : getSortedFeed [zeroTsPost, midTsPost] (some ("chronological")) =
      [zeroTsPost, midTsPost] := rfl
  rw [h] at hcon
  have h2 := List.rel_of_sorted_cons hcon midTsPost (List.mem_singleton.mpr rfl)
  revert h2
  decide

/-- C9 amended: the chronological policy returns a permutation of the
snapshot sorted descending by the key "timestamp if present and nonzero,
otherwise scrapedAt" (`chronoKey`, the `||` semantics), records with equal
keys keeping their original collection order; the store itself is left
unchanged by a `GET_FEED` dispatch (the code sorts a copy). -/
theorem chronological_sort_correct :
    ∀ s : BgState,
      (dispatch s (.getFeed (some ("chronological")))).state = s ∧
      (getSortedFeed s.unifiedFeed (some ("chronological"))).Perm s.unifiedFeed ∧
      List.Sorted (keyDescRel chronoKey)
        (getSortedFeed s.unifiedFeed (some ("chronological"))) ∧
      ∀ k : Nat,
        (getSortedFeed s.unifiedFeed (some ("chronological"))).filter
            (fun p => chronoKey p == k) =
          s.unifiedFeed.filter (fun p => chronoKey p == k) := by
  intro s
  have hgs : getSortedFeed s.unifiedFeed (some ("chronological")) =
      List.insertionSort (keyDescRel chronoKey) s.unifiedFeed := rfl
  refine ⟨rfl, ?_, ?_, ?_⟩
  · rw [hgs]
    exact List.perm_insertionSort _ _
  · rw [hgs]
    exact List.sorted_insertionSort _ _
  · intro k
    rw [hgs]
    exact filter_insertionSort chronoKey k _

/-! ## C10: re-upsert overwrites sourceTabId -/

/-- C10: re-ingesting an existing id overwrites the stored record wholesale,
including `sourceTabId`, with the current sender's tab id; consequently a
cascade delete of the earlier sender no longer removes that post, while a
cascade delete of the most recent sender does. -/
theorem reupsert_overwrites_sourceTab :
    ∀ (f : List Post) (r : Post) (t1 t2 : Nat) (i : Nat) (hi : i < f.length),
      (f.map Post.id).Nodup → f.length ≤ MAX_FEED_SIZE → (f[i]).id = r.id →
      t1 ≠ t2 →
      (∀ p ∈ (handleNewPost f r (some t2)).feed,
        p.id = r.id → p.sourceTabId = some t2) ∧
      (∃ p ∈ cleanupTabPosts t1 (handleNewPost f r (some t2)).feed, p.id = r.id) ∧
      (∀ p ∈ cleanupTabPosts t2 (handleNewPost f r (some t2)).feed, p.id ≠ r.id) := by
  intro f r t1 t2 i hi hnd hlen hid hne
  have hfeed : (handleNewPost f r (some t2)).feed =
      f.set i { r with sourceTabId := some t2 } := by
    rw [handleNewPost_replace (t := some t2) hi hnd hid]
    exact trimFeed_eq_of_le (by rw [List.length_set]; exact hlen)
  have hmem : ∀ p ∈ f.set i { r with sourceTabId := some t2 },
      p.id = r.id → p = { r with sourceTabId := some t2 } := by
    intro p hp hpid
    obtain ⟨j, hj, hje⟩ := List.mem_iff_getElem.mp hp
    by_cases hij : i = j
    · subst hij
      rw [List.getElem_set_self] at hje
      exact hje.symm
    · rw [List.getElem_set_ne hij] at hje
      exfalso
      have hjlen : j < f.length := by simpa [List.length_set] using hj
      have hmi : i < (f.map Post.id).length := by simpa using hi
      have hmj : j < (f.map Post.id).length := by simpa using hjlen
      have heq : (f.map Post.id)[i] = (f.map Post.id)[j] := by
        rw [List.getElem_map, List.getElem_map, hid, ← hpid, hje]
      exact hij ((hnd.getElem_inj_iff).mp heq)
  have hpin : ({ r with sourceTabId := some t2 } : Post) ∈
      f.set i { r with sourceTabId := some t2 } :=
    List.mem_iff_getElem.mpr
      ⟨i, by simpa [List.length_set] using hi, List.getElem_set_self _⟩
  refine ⟨?_, ?_, ?_⟩
  · intro p hp hpid
    rw [hfeed] at hp
    rw [hmem p hp hpid]
  · refine ⟨{ r with sourceTabId := some t2 }, ?_, rfl⟩
    unfold cleanupTabPosts
    rw [hfeed, List.mem_filter]
    refine ⟨hpin, ?_⟩
    rw [bne_iff_ne]
    intro hcon
    exact hne (Option.some.inj hcon).symm
  · intro p hp hpid
    unfold cleanupTabPosts at hp
    rw [hfeed] at hp
    obtain ⟨hpm, hpb⟩ := List.mem_filter.mp hp
    have hpe := hmem p hpm hpid
    rw [hpe, bne_iff_ne] at hpb
    exact hpb rfl

/-- Witness for C10: after tab 9 re-announces `pB`'s id, stopping tab 7
no longer removes the post. -/
theorem reupsert_overwrites_sourceTab_witness :
    ∃ p ∈ cleanupTabPosts 7 (handleNewPost [pA, pB] rB (some 9)).feed,
      p.id = rB.id :=
  (reupsert_overwrites_sourceTab [pA, pB] rB 7 9 1 (by decide) (by decide)
    (by decide) (by decide) (by decide)).2.1

end SocialAgg
